import Mathlib

/-!
Shallow embedding of `principalmap/edgeconditions/util.py`.

The module drives the AWS `SimulatePrincipalPolicy` API in batches of at
most twenty resources, with a retry-on-throttle loop around each remote
call, and reassembles the per-action / per-resource decisions.

Modelling conventions:
* Botocore responses are dictionaries; the functions of this module read a
  fixed set of keys from them.  Responses consumed by the extractors
  (`_extract_results`, `_extract_resource_specific_results`,
  `_extractPassResults`, `findInEvalResults`) are modelled by the
  structure `Response`, whose fields are exactly the keys those functions
  read.  `testAction` explicitly tests `'EvaluationResults' in response`
  and `'EvalDecision' in response['EvaluationResults'][0]`, so the
  response it consumes is modelled by `RawResponse`, with `Option` fields
  for the keys whose presence it checks.
* The remote client is modelled by an oracle `sim : SimRequest → Response`
  mapping each request (keyword arguments of `simulate_principal_policy`)
  to the response the remote capability eventually returns.  The
  orchestration functions additionally return the ordered trace of
  requests they issue, so that call counts and call arguments are part of
  the embedded semantics.
* The `while not done: try ... except ClientError` retry loop, textually
  identical in `_test_less` and `_test_less_pass`, is embedded once as
  `invokeRetry` over an explicit list of per-attempt outcomes; the
  orchestration functions are embedded against the oracle of successful
  responses that the loop eventually obtains.
* Python exceptions (`ValueError`, `IndexError`, the bare `Exception` of
  `testAction`) are modelled with `Except PyError`.
-/

/-- A decision tuple `(action, resource, allowed)`. -/
abbrev DecisionTuple := String × String × Bool

/-- One element of the `ContextEntries` argument of
`simulate_principal_policy`. -/
structure ContextEntry where
  contextKeyName : String
  contextKeyValues : List String
  contextKeyType : String
deriving DecidableEq

/-- The keyword arguments of one `simulate_principal_policy` call.  Call
sites that pass no `ContextEntries` are modelled with the empty list. -/
structure SimRequest where
  policySourceArn : String
  actionNames : List String
  resourceArns : List String
  contextEntries : List ContextEntry
deriving DecidableEq

/-- One entry of `ResourceSpecificResults` inside an evaluation result. -/
structure ResourceSpecificResult where
  evalResourceName : String
  evalResourceDecision : String
deriving DecidableEq

/-- One entry of `EvaluationResults` of a well-formed simulation
response. -/
structure EvaluationResult where
  evalActionName : String
  evalResourceName : String
  evalDecision : String
  resourceSpecificResults : List ResourceSpecificResult
deriving DecidableEq

/-- A well-formed simulation response, as consumed by the extractors. -/
structure Response where
  evaluationResults : List EvaluationResult
deriving DecidableEq

/-- An evaluation result whose `EvalDecision` key may be absent
(`testAction` tests its presence with `in`). -/
structure RawEvalResult where
  evalDecision : Option String
deriving DecidableEq

/-- A possibly malformed simulation response: the `EvaluationResults` key
may be absent (`testAction` tests its presence with `in`). -/
structure RawResponse where
  evaluationResults : Option (List RawEvalResult)
deriving DecidableEq

/-- An `AWSNode`: the module only ever reads its `label` (the ARN). -/
structure AWSNode where
  label : String
deriving DecidableEq

/-- A botocore `ClientError`, identified by `err.response['Error']['Code']`. -/
structure ClientError where
  code : String
deriving DecidableEq

/-- The Python exceptions raised by this module. -/
inductive PyError where
  /-- `ValueError` (bad `actionList`). -/
  | valueError : PyError
  /-- `IndexError` (indexing `['EvaluationResults'][0]` of an empty list). -/
  | indexError : PyError
  /-- `Exception('Failed to get a response when simulating a policy')`. -/
  | simulationFailed : PyError
deriving DecidableEq

/-- Test `leadsWith p l`: true when `p` is an initial segment of `l`. -/
def leadsWith : List Char → List Char → Bool
  | [], _ => true
  | _ :: _, [] => false
  | p :: ps, c :: cs => p == c && leadsWith ps cs

/-- Test `containsSeq p l`: Python's substring test `p in l` on the
underlying character lists. -/
def containsSeq (pat : List Char) : List Char → Bool
  | [] => leadsWith pat []
  | c :: cs => leadsWith pat (c :: cs) || containsSeq pat cs

/-- The throttling classification of both retry loops:
`'Thrott' in err.response['Error']['Code']`. -/
def isThrottling (e : ClientError) : Bool :=
  containsSeq "Thrott".data e.code.data

/-- Python's `s.split(sep)` on character lists: splits on every occurrence
of `sep`, keeping empty segments; the result is always non-empty. -/
def pySplitAux (sep : Char) : List Char → List (List Char)
  | [] => [[]]
  | c :: cs =>
    if c = sep then [] :: pySplitAux sep cs
    else
      match pySplitAux sep cs with
      | t :: ts => (c :: t) :: ts
      | [] => [[c]]

/-- Python's `s.split(sep)` for a one-character separator. -/
def pySplit (sep : Char) (s : String) : List String :=
  (pySplitAux sep s.data).map (fun cs => String.mk cs)

/-- The Python slice `l[x:y]` for `x ≤ y`. -/
def pySlice (l : List α) (x y : Nat) : List α :=
  (l.drop x).take (y - x)

/-- Literal transcription of the inline chunking loop shared by
`test_node_access` and `testMassPass`:

```
x = 0; y = 20
while x != len(l):
    if y > len(l): y = len(l)
    out.append(l[x:y])
    x += 20; y += 20
    if x > len(l): x = len(l)
```

`fuel` bounds the number of iterations; `none` means the loop had not
finished within `fuel` iterations. -/
def chunkLoopF (fuel : Nat) (l : List α) (x y : Nat) : Option (List (List α)) :=
  match fuel with
  | 0 => none
  | Nat.succ fuel =>
    if x = l.length then some []
    else
      let y1 := if y > l.length then l.length else y
      let c := pySlice l x y1
      let x1 := x + 20
      let x2 := if x1 > l.length then l.length else x1
      (chunkLoopF fuel l x2 (y1 + 20)).map (fun rest => c :: rest)

/-- Structural characterisation of the chunking loop: groups of twenty in
order, last group possibly shorter.  `chunkLoopF_spec` proves that the
literal loop, started at `x = 0, y = 20` with enough fuel, computes
exactly this. -/
def chunkTwenty : List α → List (List α)
  | [] => []
  | c :: cs => (c :: cs).take 20 :: chunkTwenty ((c :: cs).drop 20)
termination_by l => l.length
decreasing_by
  simp only [List.length_drop, List.length_cons]
  omega

/-- The loop body of `findInEvalResults`: return at the first evaluation
result matching both names, with `result['EvalDecision'] == 'allowed'`. -/
def findInEvalLoop (action resource : String) : List EvaluationResult → Bool
  | [] => false
  | r :: rest =>
    if action == r.evalActionName && resource == r.evalResourceName then
      r.evalDecision == "allowed"
    else findInEvalLoop action resource rest

/-- Source function `findInEvalResults(response, action, resource)`. -/
def findInEvalResults (response : Response) (action resource : String) : Bool :=
  findInEvalLoop action resource response.evaluationResults

/-- Source function `_extract_results(response)`: one tuple per evaluation result, used
when the request carried a single resource (or the wildcard). -/
def _extract_results (response : Response) : List DecisionTuple :=
  response.evaluationResults.foldl
    (fun acc er =>
      acc ++ [(er.evalActionName, er.evalResourceName, er.evalDecision == "allowed")])
    []

/-- Source function `_extract_resource_specific_results(response)`: for each evaluation
result, one tuple per nested resource-specific result, used when the
request carried more than one resource. -/
def _extract_resource_specific_results (response : Response) : List DecisionTuple :=
  response.evaluationResults.foldl
    (fun acc er =>
      er.resourceSpecificResults.foldl
        (fun acc2 rsr =>
          acc2 ++ [(er.evalActionName, rsr.evalResourceName,
                    rsr.evalResourceDecision == "allowed")])
        acc)
    []

/-- The `simulate_principal_policy` request issued by `_test_less` (no
`ContextEntries` argument). -/
def mkAccessRequest (nodeLabel action : String) (resourceList : List String) : SimRequest :=
  { policySourceArn := nodeLabel
    actionNames := [action]
    resourceArns := resourceList
    contextEntries := [] }

/-- Source function `_test_less(iamclient, node, action, resourceList)` against the oracle
of successful responses (the retry loop itself is `invokeRetry`).  Also
returns the one-element trace of requests issued. -/
def _test_less (sim : SimRequest → Response) (nodeLabel action : String)
    (resourceList : List String) : List DecisionTuple × List SimRequest :=
  let req := mkAccessRequest nodeLabel action resourceList
  let response := sim req
  let tuples :=
    if resourceList.length > 1 then _extract_resource_specific_results response
    else _extract_results response
  (tuples, [req])

/-- Lines 43–44 of `test_node_access`: substitute `['*']` when the
resource list is `None` or empty. -/
def effectiveResources (resourceList : Option (List String)) : List String :=
  match resourceList with
  | none => ["*"]
  | some l => if l.length < 1 then ["*"] else l

/-- Source function `test_node_access(iamclient, node, actionList, resourceList)`.
Returns the accumulated decision tuples together with the ordered trace
of `simulate_principal_policy` requests, or `ValueError` when the action
list is empty or longer than twenty.  The inline chunking loop is
`chunkTwenty` (see `chunkLoopF_spec` for its equivalence with the literal
loop `chunkLoopF`). -/
def test_node_access (sim : SimRequest → Response) (nodeLabel : String)
    (actionList : List String) (resourceList : Option (List String)) :
    Except PyError (List DecisionTuple × List SimRequest) :=
  if actionList.length > 20 || actionList.length == 0 then
    Except.error PyError.valueError
  else
    let rl := effectiveResources resourceList
    Except.ok (actionList.foldl
      (fun acc action =>
        if rl.length > 20 then
          (chunkTwenty rl).foldl
            (fun acc2 rlist =>
              let step := _test_less sim nodeLabel action rlist
              (acc2.1 ++ step.1, acc2.2 ++ step.2))
            acc
        else
          let step := _test_less sim nodeLabel action rl
          (acc.1 ++ step.1, acc.2 ++ step.2))
      ([], []))

/-- Outcome of the retry loop on a finite list of per-attempt results:
either the first successful response together with the number of
one-second backoff sleeps performed before it, or the first non-throttling
`ClientError` re-raised together with the sleeps performed before it, or
`outOfAttempts` when every provided attempt was a throttling error (the
loop is still running). -/
inductive InvokeOutcome where
  | success (r : Response) (sleeps : Nat)
  | raised (e : ClientError) (sleeps : Nat)
  | outOfAttempts
deriving DecidableEq

/-- The `while not done: try ... except ClientError` loop shared verbatim
by `_test_less` (lines 72–86) and `_test_less_pass` (lines 168–183): on a
throttling error code sleep one second and retry; on any other
`ClientError` re-raise. -/
def invokeRetry : List (Except ClientError Response) → InvokeOutcome
  | [] => InvokeOutcome.outOfAttempts
  | Except.ok r :: _ => InvokeOutcome.success r 0
  | Except.error e :: rest =>
    if isThrottling e then
      match invokeRetry rest with
      | InvokeOutcome.success r n => InvokeOutcome.success r (n + 1)
      | InvokeOutcome.raised e1 n => InvokeOutcome.raised e1 (n + 1)
      | InvokeOutcome.outOfAttempts => InvokeOutcome.outOfAttempts
    else InvokeOutcome.raised e 0

/-- The `simulate_principal_policy` request issued by `_test_less_pass`:
action `iam:PassRole`, the candidates' ARNs, and the single
`iam:PassedToService` context entry. -/
def mkPassRequest (passerLabel : String) (candidates : List AWSNode)
    (service : String) : SimRequest :=
  { policySourceArn := passerLabel
    actionNames := ["iam:PassRole"]
    resourceArns := candidates.map (fun c => c.label)
    contextEntries := [⟨"iam:PassedToService", [service], "string"⟩] }

/-- Source function `_extractPassResults(response, candidates)`: the doubly nested loop
appending `candidate` once for every resource-specific result of the
first evaluation result whose name matches the candidate's label with an
`allowed` decision.  Indexing `['EvaluationResults'][0]` of an empty list
is Python's `IndexError`. -/
def _extractPassResults (response : Response) (candidates : List AWSNode) :
    Except PyError (List AWSNode) :=
  match response.evaluationResults with
  | [] => Except.error PyError.indexError
  | er :: _ =>
    Except.ok (candidates.foldl
      (fun acc c =>
        er.resourceSpecificResults.foldl
          (fun acc2 rsr =>
            if c.label == rsr.evalResourceName && rsr.evalResourceDecision == "allowed" then
              acc2 ++ [c]
            else acc2)
          acc)
      [])

/-- Source function `_test_less_pass(iamclient, passer, candidates, service)` against the
oracle of successful responses, with its one-element request trace. -/
def _test_less_pass (sim : SimRequest → Response) (passerLabel : String)
    (candidates : List AWSNode) (service : String) :
    Except PyError (List AWSNode × List SimRequest) := do
  let req := mkPassRequest passerLabel candidates service
  let r ← _extractPassResults (sim req) candidates
  pure (r, [req])

/-- Source function `testMassPass(iamclient, passer, candidates, service)`: empty
candidate list short-circuits to `[]` with no remote call; at most twenty
candidates go out in one call; more are chunked by the inline loop
(`chunkTwenty`, see `chunkLoopF_spec`). -/
def testMassPass (sim : SimRequest → Response) (passerLabel : String)
    (candidates : List AWSNode) (service : String) :
    Except PyError (List AWSNode × List SimRequest) :=
  if candidates.length == 0 then Except.ok ([], [])
  else if candidates.length > 20 then
    (chunkTwenty candidates).foldlM
      (fun acc rolelist => do
        let step ← _test_less_pass sim passerLabel rolelist service
        pure (acc.1 ++ step.1, acc.2 ++ step.2))
      (([], []) : List AWSNode × List SimRequest)
  else do
    let step ← _test_less_pass sim passerLabel candidates service
    pure (step.1, step.2)

/-- The `aws:username` context entry built by `testAction`:
`tokens = PolicySourceArn.split('/'); value = tokens[len(tokens) - 1]`. -/
def usernameEntry (policySourceArn : String) : ContextEntry :=
  let tokens := pySplit '/' policySourceArn
  { contextKeyName := "aws:username"
    contextKeyValues := [tokens.getD (tokens.length - 1) ""]
    contextKeyType := "string" }

/-- The context-building loop of `testAction` over the returned
`ContextKeyNames`, with the `username_key_used` flag. -/
def buildCtxLoop (policySourceArn : String) (keys : List String)
    (acc : List ContextEntry) (usernameKeyUsed : Bool) : List ContextEntry :=
  match keys with
  | [] => acc
  | key :: rest =>
    if key == "aws:username" && !usernameKeyUsed then
      buildCtxLoop policySourceArn rest (acc ++ [usernameEntry policySourceArn]) true
    else buildCtxLoop policySourceArn rest acc usernameKeyUsed

/-- The context entries `testAction` attaches, given the context key names
returned by `get_context_keys_for_principal_policy`. -/
def buildTestActionContext (policySourceArn : String) (keys : List String) :
    List ContextEntry :=
  buildCtxLoop policySourceArn keys [] false

/-- The `simulate_principal_policy` request issued by `testAction`
(`ResourceArns` omitted when no resource is supplied, modelled as `[]`). -/
def testActionRequest (getKeys : String → List String)
    (policySourceArn actionName : String) (resourceArn : Option String) : SimRequest :=
  let ctx := buildTestActionContext policySourceArn (getKeys policySourceArn)
  match resourceArn with
  | some r => { policySourceArn := policySourceArn, actionNames := [actionName],
                resourceArns := [r], contextEntries := ctx }
  | none => { policySourceArn := policySourceArn, actionNames := [actionName],
              resourceArns := [], contextEntries := ctx }

/-- The final lines of `testAction`: return
`EvaluationResults[0]['EvalDecision'] == 'allowed'` when both keys are
present, raise
`Exception('Failed to get a response when simulating a policy')` when the
`EvaluationResults` key is absent or its first entry lacks `EvalDecision`,
and `IndexError` when the list is present but empty. -/
def extractTestActionDecision (response : RawResponse) : Except PyError Bool :=
  match response.evaluationResults with
  | none => Except.error PyError.simulationFailed
  | some [] => Except.error PyError.indexError
  | some (r :: _) =>
    match r.evalDecision with
    | none => Except.error PyError.simulationFailed
    | some d => Except.ok (d == "allowed")

/-- Source function `testAction(client, PolicySourceArn, ActionName, ResourceArn, ...)`:
query context keys, build context entries, issue one simulation call, and
extract the boolean decision. -/
def testAction (getKeys : String → List String) (sim : SimRequest → RawResponse)
    (policySourceArn actionName : String) (resourceArn : Option String) :
    Except PyError Bool :=
  extractTestActionDecision
    (sim (testActionRequest getKeys policySourceArn actionName resourceArn))

/-- The per-candidate `allowed` test over the first evaluation result of
a response: candidate `c` passes when some resource-specific result names
`c.label` with an `allowed` decision (the filter condition of
`_extractPassResults`). -/
def passAllowed (response : Response) (c : AWSNode) : Bool :=
  match response.evaluationResults with
  | [] => false
  | er :: _ => er.resourceSpecificResults.any
      (fun rsr => c.label == rsr.evalResourceName && rsr.evalResourceDecision == "allowed")

/-- A concrete well-formed oracle: allows everything, echoing one
evaluation result per requested action and one resource-specific result
per requested resource. -/
def allowAllSim (req : SimRequest) : Response :=
  { evaluationResults := req.actionNames.map (fun a =>
      { evalActionName := a
        evalResourceName := "*"
        evalDecision := "allowed"
        resourceSpecificResults := req.resourceArns.map (fun r =>
          { evalResourceName := r, evalResourceDecision := "allowed" }) }) }

/-! Section: Chunking lemmas -/

theorem chunkTwenty_nil : chunkTwenty ([] : List α) = [] := by
  simp [chunkTwenty]

theorem chunkTwenty_cons_eq (l : List α) (h : l ≠ []) :
    chunkTwenty l = l.take 20 :: chunkTwenty (l.drop 20) := by
  match l, h with
  | c :: cs, _ => rw [chunkTwenty]

/-- A list of at most twenty elements is a single chunk. -/
theorem chunkTwenty_short (l : List α) (h : l ≠ []) (h20 : l.length ≤ 20) :
    chunkTwenty l = [l] := by
  rw [chunkTwenty_cons_eq l h, List.take_of_length_le h20,
    List.drop_eq_nil_of_le h20, chunkTwenty_nil]

/-- The chunks concatenate back to the original list. -/
theorem chunkTwenty_flatten (l : List α) : (chunkTwenty l).flatten = l := by
  induction l using chunkTwenty.induct with
  | case1 => simp [chunkTwenty_nil]
  | case2 c cs ih =>
    rw [chunkTwenty_cons_eq _ (by simp), List.flatten_cons, ih,
      List.take_append_drop]

/-- Every chunk has between one and twenty elements. -/
theorem chunkTwenty_mem_length (l : List α) :
    ∀ c ∈ chunkTwenty l, 1 ≤ c.length ∧ c.length ≤ 20 := by
  induction l using chunkTwenty.induct with
  | case1 => intro c hc; simp [chunkTwenty_nil] at hc
  | case2 a as ih =>
    intro c hc
    rw [chunkTwenty_cons_eq _ (by simp), List.mem_cons] at hc
    rcases hc with hc | hc
    · subst hc
      constructor
      · simp [List.length_take]
      · simp [List.length_take]
    · exact ih c hc

/-- There are exactly `⌈len / 20⌉` chunks. -/
theorem chunkTwenty_count (l : List α) :
    (chunkTwenty l).length = (l.length + 19) / 20 := by
  induction l using chunkTwenty.induct with
  | case1 => simp [chunkTwenty_nil]
  | case2 a as ih =>
    rw [chunkTwenty_cons_eq _ (by simp), List.length_cons, ih]
    simp only [List.length_drop, List.length_cons]
    omega

/-- The literal while-loop, run from `x` with the invariant `y = x + 20`
and enough fuel, computes the chunks of the remaining suffix. -/
theorem chunkLoopF_from (fuel : Nat) :
    ∀ (l : List α) (x : Nat), x ≤ l.length → l.length - x < fuel →
      chunkLoopF fuel l x (x + 20) = some (chunkTwenty (l.drop x)) := by
  induction fuel with
  | zero => intro l x _ h; omega
  | succ fuel ih =>
    intro l x hx hfuel
    rw [chunkLoopF]
    by_cases hdone : x = l.length
    · simp [hdone, List.drop_length, chunkTwenty_nil]
    · have hlt : x < l.length := lt_of_le_of_ne hx hdone
      simp only [if_neg hdone]
      have hdrop : l.drop x ≠ [] := by
        intro hnil
        have := List.length_drop x l
        rw [hnil] at this
        simp at this
        omega
      by_cases hy : x + 20 > l.length
      · -- last, short chunk: the clamped slice is the whole suffix
        have hx2 : ¬ x + 20 ≤ l.length := by omega
        simp only [if_pos hy, if_pos hy]
        have hrec : chunkLoopF fuel l l.length (l.length + 20) =
            some (chunkTwenty (l.drop l.length)) := by
          apply ih l l.length le_rfl
          omega
        rw [hrec]
        simp only [List.drop_length, chunkTwenty_nil, Option.map_some']
        congr 1
        rw [chunkTwenty_cons_eq _ hdrop]
        have hd20 : (l.drop x).drop 20 = [] := by
          rw [List.drop_drop]
          exact List.drop_eq_nil_of_le (by omega)
        rw [hd20, chunkTwenty_nil]
        congr 1
        unfold pySlice
        have h1 : (l.drop x).length ≤ l.length - x := by
          rw [List.length_drop]
        have h2 : (l.drop x).length ≤ 20 := by
          rw [List.length_drop]; omega
        rw [List.take_of_length_le h1, List.take_of_length_le h2]
      · -- full chunk of twenty remains
        have hy' : x + 20 ≤ l.length := by omega
        simp only [if_neg hy]
        have hrec : chunkLoopF fuel l (x + 20) (x + 20 + 20) =
            some (chunkTwenty (l.drop (x + 20))) := by
          apply ih l (x + 20) hy'
          omega
        rw [hrec, Option.map_some']
        congr 1
        rw [chunkTwenty_cons_eq _ hdrop]
        congr 1
        · unfold pySlice
          congr 1
          omega
        · rw [List.drop_drop]

/-- Started at `x = 0, y = 20` with fuel exceeding the list length, the
literal loop computes `chunkTwenty`. -/
theorem chunkLoopF_spec (l : List α) (fuel : Nat) (h : l.length < fuel) :
    chunkLoopF fuel l 0 20 = some (chunkTwenty l) := by
  have := chunkLoopF_from fuel l 0 (Nat.zero_le _) (by omega)
  simpa using this

/-! Section: fold-accumulator lemmas -/

/-- A left fold whose body appends a computed block to the accumulator is
a `flatMap`. -/
theorem foldl_append_of_body {α β : Type} (body : List β → α → List β)
    (g : α → List β) (h : ∀ acc a, body acc a = acc ++ g a) :
    ∀ (l : List α) (init : List β), l.foldl body init = init ++ l.flatMap g := by
  intro l
  induction l with
  | nil => intro init; simp
  | cons a as ih =>
    intro init
    rw [List.foldl_cons, ih, h, List.flatMap_cons, List.append_assoc]

/-- A left fold on a pair whose body appends computed blocks to both
components is a pair of `flatMap`s. -/
theorem foldl_pair_of_body {α β γ : Type} (body : List β × List γ → α → List β × List γ)
    (f : α → List β) (g : α → List γ)
    (h : ∀ acc a, body acc a = (acc.1 ++ f a, acc.2 ++ g a)) :
    ∀ (l : List α) (init : List β × List γ),
      l.foldl body init = (init.1 ++ l.flatMap f, init.2 ++ l.flatMap g) := by
  intro l
  induction l with
  | nil => intro init; simp
  | cons a as ih =>
    intro init
    rw [List.foldl_cons, ih, h, List.flatMap_cons, List.flatMap_cons]
    simp [List.append_assoc]

/-- Lemma: `flatMap` of singletons is `map`. -/
theorem flatMap_singleton_eq_map {α β : Type} (f : α → β) (l : List α) :
    l.flatMap (fun a => [f a]) = l.map f := by
  induction l with
  | nil => rfl
  | cons a as ih => rw [List.flatMap_cons, List.map_cons, ih]; rfl

/-- Lemma: `flatMap` of `if p a then [a] else []` is `filter`. -/
theorem flatMap_ite_eq_filter {α : Type} (p : α → Bool) (l : List α) :
    l.flatMap (fun a => if p a then [a] else []) = l.filter p := by
  induction l with
  | nil => rfl
  | cons a as ih =>
    rw [List.flatMap_cons, ih, List.filter_cons]
    by_cases h : p a
    · simp [h]
    · simp [h]

/-! Section: Extractor characterisations -/

/-- Lemma: `_extract_results` emits one tuple per evaluation result, in order. -/
theorem _extract_results_eq (response : Response) :
    _extract_results response = response.evaluationResults.map
      (fun er => (er.evalActionName, er.evalResourceName, er.evalDecision == "allowed")) := by
  unfold _extract_results
  have h := foldl_append_of_body
    (fun acc (er : EvaluationResult) =>
      acc ++ [(er.evalActionName, er.evalResourceName, er.evalDecision == "allowed")])
    (fun er => [(er.evalActionName, er.evalResourceName, er.evalDecision == "allowed")])
    (fun acc a => rfl) response.evaluationResults []
  rw [h, List.nil_append, flatMap_singleton_eq_map]

/-- Lemma: `_extract_resource_specific_results` emits, for each evaluation
result in order, one tuple per nested resource-specific result in order,
pairing the outer action name with the inner resource name and
`allowed`-decision. -/
theorem _extract_resource_specific_results_eq (response : Response) :
    _extract_resource_specific_results response = response.evaluationResults.flatMap
      (fun er => er.resourceSpecificResults.map
        (fun rsr => (er.evalActionName, rsr.evalResourceName,
                     rsr.evalResourceDecision == "allowed"))) := by
  unfold _extract_resource_specific_results
  have hinner : ∀ (er : EvaluationResult) (acc : List DecisionTuple),
      er.resourceSpecificResults.foldl
        (fun acc2 rsr => acc2 ++ [(er.evalActionName, rsr.evalResourceName,
                                   rsr.evalResourceDecision == "allowed")]) acc
      = acc ++ er.resourceSpecificResults.map
          (fun rsr => (er.evalActionName, rsr.evalResourceName,
                       rsr.evalResourceDecision == "allowed")) := by
    intro er acc
    have h := foldl_append_of_body
      (fun acc2 (rsr : ResourceSpecificResult) =>
        acc2 ++ [(er.evalActionName, rsr.evalResourceName,
                  rsr.evalResourceDecision == "allowed")])
      (fun rsr => [(er.evalActionName, rsr.evalResourceName,
                    rsr.evalResourceDecision == "allowed")])
      (fun acc2 rsr => rfl) er.resourceSpecificResults acc
    rw [h, flatMap_singleton_eq_map]
  have houter := foldl_append_of_body
    (fun acc (er : EvaluationResult) =>
      er.resourceSpecificResults.foldl
        (fun acc2 rsr => acc2 ++ [(er.evalActionName, rsr.evalResourceName,
                                   rsr.evalResourceDecision == "allowed")]) acc)
    (fun er => er.resourceSpecificResults.map
      (fun rsr => (er.evalActionName, rsr.evalResourceName,
                   rsr.evalResourceDecision == "allowed")))
    (fun acc er => hinner er acc) response.evaluationResults []
  rw [houter, List.nil_append]

/-! Section: access-tester characterisation -/

/-- The effective resource list is never empty. -/
theorem effectiveResources_ne_nil (rl : Option (List String)) :
    effectiveResources rl ≠ [] := by
  unfold effectiveResources
  match rl with
  | none => simp
  | some l =>
    by_cases h : l.length < 1
    · simp [h]
    · have : l ≠ [] := by
        intro hnil
        rw [hnil] at h
        simp at h
      simp [h, this]

/-- The effective resource list has `max 1 len` elements. -/
theorem effectiveResources_length (rl : Option (List String)) :
    (effectiveResources rl).length = max 1 (rl.getD []).length := by
  unfold effectiveResources
  match rl with
  | none => simp
  | some l =>
    by_cases h : l.length < 1
    · simp [h]; omega
    · simp [h]; omega

/-- Characterisation: `test_node_access`, on a valid action list, returns the decision
tuples and the request trace as flat maps over actions (outer, input
order) and resource chunks (inner, input order). -/
theorem test_node_access_ok (sim : SimRequest → Response) (nodeLabel : String)
    (actionList : List String) (resourceList : Option (List String))
    (h0 : actionList.length ≠ 0) (h20 : actionList.length ≤ 20) :
    test_node_access sim nodeLabel actionList resourceList = Except.ok
      (actionList.flatMap (fun action =>
        (chunkTwenty (effectiveResources resourceList)).flatMap
          (fun c => (_test_less sim nodeLabel action c).1)),
       actionList.flatMap (fun action =>
        (chunkTwenty (effectiveResources resourceList)).map
          (fun c => mkAccessRequest nodeLabel action c))) := by
  unfold test_node_access
  have hcond : ¬ (actionList.length > 20 || actionList.length == 0) = true := by
    simp only [Bool.or_eq_true, decide_eq_true_eq, beq_iff_eq, gt_iff_lt]
    push_neg
    omega
  rw [if_neg hcond]
  have hbody : ∀ (acc : List DecisionTuple × List SimRequest) (action : String),
      (if (effectiveResources resourceList).length > 20 then
        (chunkTwenty (effectiveResources resourceList)).foldl
          (fun acc2 rlist =>
            let step := _test_less sim nodeLabel action rlist
            (acc2.1 ++ step.1, acc2.2 ++ step.2))
          acc
      else
        let step := _test_less sim nodeLabel action (effectiveResources resourceList)
        (acc.1 ++ step.1, acc.2 ++ step.2))
      = (acc.1 ++ (chunkTwenty (effectiveResources resourceList)).flatMap
           (fun c => (_test_less sim nodeLabel action c).1),
         acc.2 ++ (chunkTwenty (effectiveResources resourceList)).map
           (fun c => mkAccessRequest nodeLabel action c)) := by
    intro acc action
    by_cases hlen : (effectiveResources resourceList).length > 20
    · rw [if_pos hlen]
      have h := foldl_pair_of_body
        (fun acc2 rlist =>
          let step := _test_less sim nodeLabel action rlist
          (acc2.1 ++ step.1, acc2.2 ++ step.2))
        (fun c => (_test_less sim nodeLabel action c).1)
        (fun c => (_test_less sim nodeLabel action c).2)
        (fun acc2 rlist => rfl)
        (chunkTwenty (effectiveResources resourceList)) acc
      rw [h]
      have hreq : (chunkTwenty (effectiveResources resourceList)).flatMap
            (fun c => (_test_less sim nodeLabel action c).2)
          = (chunkTwenty (effectiveResources resourceList)).map
            (fun c => mkAccessRequest nodeLabel action c) := by
        rw [show (fun c => (_test_less sim nodeLabel action c).2)
              = (fun c => [mkAccessRequest nodeLabel action c]) from rfl]
        exact flatMap_singleton_eq_map _ _
      rw [hreq]
    · rw [if_neg hlen]
      have hone : chunkTwenty (effectiveResources resourceList) =
          [effectiveResources resourceList] :=
        chunkTwenty_short _ (effectiveResources_ne_nil _) (by omega)
      rw [hone]
      simp [mkAccessRequest, _test_less]
  have h := foldl_pair_of_body _
    (fun action => (chunkTwenty (effectiveResources resourceList)).flatMap
      (fun c => (_test_less sim nodeLabel action c).1))
    (fun action => (chunkTwenty (effectiveResources resourceList)).map
      (fun c => mkAccessRequest nodeLabel action c))
    hbody actionList ([], [])
  simpa using h

/-- Summing a constant over a list. -/
theorem sum_of_const {l : List Nat} {k : Nat} (h : ∀ a ∈ l, a = k) :
    l.sum = l.length * k := by
  rw [List.eq_replicate_of_mem h, List.sum_replicate, List.length_replicate,
    smul_eq_mul]

/-- Length of a `flatMap` whose blocks all have the same length. -/
theorem length_flatMap_const {α β : Type} {l : List α} {f : α → List β} {k : Nat}
    (h : ∀ a ∈ l, (f a).length = k) : (l.flatMap f).length = l.length * k := by
  rw [List.length_flatMap]
  have : (l.map (List.length ∘ f)).length = l.length := List.length_map l _
  rw [← this]
  apply sum_of_const
  intro a ha
  rcases List.mem_map.mp ha with ⟨b, hb, rfl⟩
  exact h b hb

/-- Under a well-formed response for the request (one evaluation result
for the single action, one resource-specific result per requested
resource), `_test_less` produces exactly one decision tuple per resource
of its chunk. -/
theorem _test_less_fst_length (sim : SimRequest → Response) (nodeLabel action : String)
    (c : List String) (hc : 1 ≤ c.length)
    (hA : (sim (mkAccessRequest nodeLabel action c)).evaluationResults.length = 1)
    (hR : ∀ er ∈ (sim (mkAccessRequest nodeLabel action c)).evaluationResults,
      er.resourceSpecificResults.length = c.length) :
    ((_test_less sim nodeLabel action c).1).length = c.length := by
  unfold _test_less
  by_cases hlen : c.length > 1
  · simp only [if_pos hlen]
    rw [_extract_resource_specific_results_eq]
    rw [length_flatMap_const (k := c.length) ?hk, hA, Nat.one_mul]
    intro er her
    rw [List.length_map]
    exact hR er her
  · have h1 : c.length = 1 := by omega
    simp only [if_neg hlen]
    rw [_extract_results_eq, List.length_map, hA, h1]

/-- Per-action tuple count under a well-formed oracle: each chunk of the
effective resource list yields one tuple per resource, so one action
yields one tuple per effective resource. -/
theorem flatMap_chunks_length (sim : SimRequest → Response) (nodeLabel action : String)
    (resourceList : Option (List String))
    (hsim : ∀ req : SimRequest,
      (sim req).evaluationResults.length = req.actionNames.length ∧
      ∀ er ∈ (sim req).evaluationResults,
        er.resourceSpecificResults.length = req.resourceArns.length) :
    ((chunkTwenty (effectiveResources resourceList)).flatMap
      (fun c => (_test_less sim nodeLabel action c).1)).length
    = (effectiveResources resourceList).length := by
  rw [List.length_flatMap]
  have hmapeq : (chunkTwenty (effectiveResources resourceList)).map
        (List.length ∘ (fun c => (_test_less sim nodeLabel action c).1))
      = (chunkTwenty (effectiveResources resourceList)).map List.length := by
    apply List.map_congr_left
    intro c hcmem
    simp only [Function.comp]
    exact _test_less_fst_length sim nodeLabel action c
      (chunkTwenty_mem_length _ c hcmem).1
      (hsim (mkAccessRequest nodeLabel action c)).1
      (hsim (mkAccessRequest nodeLabel action c)).2
  rw [hmapeq, ← List.length_flatten, chunkTwenty_flatten]

/-! Section: claim C1 -/

/-- C1. For every non-empty action list of length 1 to 20 and every
(optional) resource list, `test_node_access` issues, per action in input
order, exactly `⌈max 1 len(resources) / 20⌉` simulation calls — that is,
`⌈len(resources)/20⌉` when the resource list is non-empty, and exactly
one call carrying the resource list `["*"]` when it is empty or absent —
and, assuming the oracle returns one evaluation result per requested
action and one resource-specific result per requested resource, the
returned list has exactly `len(actions) * max 1 len(resources)` decision
tuples, ordered by action in input order and, within each action, by
chunk in input order (the two `flatMap` equations). -/
theorem test_node_access_counts (sim : SimRequest → Response) (nodeLabel : String)
    (actionList : List String) (resourceList : Option (List String))
    (h0 : 1 ≤ actionList.length) (h20 : actionList.length ≤ 20)
    (hsim : ∀ req : SimRequest,
      (sim req).evaluationResults.length = req.actionNames.length ∧
      ∀ er ∈ (sim req).evaluationResults,
        er.resourceSpecificResults.length = req.resourceArns.length) :
    ∃ tuples reqs,
      test_node_access sim nodeLabel actionList resourceList = Except.ok (tuples, reqs) ∧
      reqs = actionList.flatMap (fun action =>
        (chunkTwenty (effectiveResources resourceList)).map
          (fun c => mkAccessRequest nodeLabel action c)) ∧
      reqs.length = actionList.length * ((max 1 (resourceList.getD []).length + 19) / 20) ∧
      ((resourceList.getD []).length = 0 →
        reqs = actionList.map (fun action => mkAccessRequest nodeLabel action ["*"])) ∧
      tuples = actionList.flatMap (fun action =>
        (chunkTwenty (effectiveResources resourceList)).flatMap
          (fun c => (_test_less sim nodeLabel action c).1)) ∧
      tuples.length = actionList.length * max 1 (resourceList.getD []).length := by
  refine ⟨_, _, test_node_access_ok sim nodeLabel actionList resourceList
    (by omega) h20, rfl, ?_, ?_, rfl, ?_⟩
  · -- request count
    rw [length_flatMap_const
      (k := (max 1 (resourceList.getD []).length + 19) / 20) ?hk]
    intro a _
    rw [List.length_map, chunkTwenty_count, effectiveResources_length]
  · -- empty or absent resource list: one request per action, with ["*"]
    intro hempty
    have heff : effectiveResources resourceList = ["*"] := by
      unfold effectiveResources
      match resourceList with
      | none => rfl
      | some l =>
        have : l.length < 1 := by simpa using hempty
        simp [this]
    rw [heff]
    rw [chunkTwenty_short ["*"] (by simp) (by simp)]
    apply List.flatMap_congr ?_ |>.trans (flatMap_singleton_eq_map _ _)
    intro a _
    rfl
  · -- tuple count
    rw [length_flatMap_const (k := max 1 (resourceList.getD []).length) ?hk2]
    intro a _
    rw [flatMap_chunks_length sim nodeLabel a resourceList hsim,
      effectiveResources_length]


/-- The concrete oracle is well-formed. -/
theorem allowAllSim_wf : ∀ req : SimRequest,
    (allowAllSim req).evaluationResults.length = req.actionNames.length ∧
    ∀ er ∈ (allowAllSim req).evaluationResults,
      er.resourceSpecificResults.length = req.resourceArns.length := by
  intro req
  constructor
  · simp [allowAllSim]
  · intro er her
    simp only [allowAllSim, List.mem_map] at her
    rcases her with ⟨a, _, rfl⟩
    simp

/-- Witness for C1: two actions against three resources. -/
theorem test_node_access_counts_witness :
    ∃ tuples reqs,
      test_node_access allowAllSim "arn:aws:iam::0:user/alice"
        ["s3:GetObject", "s3:PutObject"] (some ["r1", "r2", "r3"])
        = Except.ok (tuples, reqs) ∧
      reqs = ["s3:GetObject", "s3:PutObject"].flatMap (fun action =>
        (chunkTwenty (effectiveResources (some ["r1", "r2", "r3"]))).map
          (fun c => mkAccessRequest "arn:aws:iam::0:user/alice" action c)) ∧
      reqs.length = ["s3:GetObject", "s3:PutObject"].length *
        ((max 1 ((some ["r1", "r2", "r3"]).getD []).length + 19) / 20) ∧
      (((some ["r1", "r2", "r3"]).getD []).length = 0 →
        reqs = ["s3:GetObject", "s3:PutObject"].map (fun action =>
          mkAccessRequest "arn:aws:iam::0:user/alice" action ["*"])) ∧
      tuples = ["s3:GetObject", "s3:PutObject"].flatMap (fun action =>
        (chunkTwenty (effectiveResources (some ["r1", "r2", "r3"]))).flatMap
          (fun c => (_test_less allowAllSim "arn:aws:iam::0:user/alice" action c).1)) ∧
      tuples.length = ["s3:GetObject", "s3:PutObject"].length *
        max 1 ((some ["r1", "r2", "r3"]).getD []).length :=
  test_node_access_counts allowAllSim "arn:aws:iam::0:user/alice"
    ["s3:GetObject", "s3:PutObject"] (some ["r1", "r2", "r3"])
    (by decide) (by decide) allowAllSim_wf

/-! Section: claim C3 -/

/-- C3. The inline chunking (the literal loop `chunkLoopF`, equal to
`chunkTwenty`) is order-preserving and exhaustive: concatenating the
chunks reproduces the input exactly (so the chunks are pairwise
non-overlapping sub-sequences), every chunk of a non-empty input has
length in `[1, 20]`, and an input of length 45 yields chunk sizes
`[20, 20, 5]` in order. -/
theorem chunking_order_preserving_exhaustive (l : List String) :
    chunkLoopF (l.length + 1) l 0 20 = some (chunkTwenty l) ∧
    (chunkTwenty l).flatten = l ∧
    (∀ c ∈ chunkTwenty l, 1 ≤ c.length ∧ c.length ≤ 20) ∧
    (l.length = 45 → (chunkTwenty l).map List.length = [20, 20, 5]) := by
  refine ⟨chunkLoopF_spec l (l.length + 1) (by omega), chunkTwenty_flatten l,
    chunkTwenty_mem_length l, ?_⟩
  intro h45
  have h1 : l ≠ [] := by
    intro h; rw [h] at h45; simp at h45
  have hd1 : (l.drop 20).length = 25 := by rw [List.length_drop]; omega
  have h2 : l.drop 20 ≠ [] := by
    intro h; rw [h] at hd1; simp at hd1
  have hd2 : ((l.drop 20).drop 20).length = 5 := by
    simp only [List.length_drop]; omega
  have h3 : (l.drop 20).drop 20 ≠ [] := by
    intro h; rw [h] at hd2; simp at hd2
  have hd3 : (((l.drop 20).drop 20).drop 20) = [] := by
    apply List.drop_eq_nil_of_le
    omega
  rw [chunkTwenty_cons_eq l h1, chunkTwenty_cons_eq _ h2, chunkTwenty_cons_eq _ h3,
    hd3, chunkTwenty_nil]
  simp only [List.map_cons, List.map_nil, List.length_take]
  rw [h45, hd1, hd2]
  norm_num

/-- Witness for C3 at a concrete 45-element list. -/
theorem chunking_order_preserving_exhaustive_witness :
    ((chunkTwenty (List.replicate 45 "r")).flatten = List.replicate 45 "r") ∧
    (chunkTwenty (List.replicate 45 "r")).map List.length = [20, 20, 5] :=
  ⟨(chunking_order_preserving_exhaustive (List.replicate 45 "r")).2.1,
   (chunking_order_preserving_exhaustive (List.replicate 45 "r")).2.2.2 (by simp)⟩

/-! Section: claim C9 -/

/-- C9. For every finite input list the chunking while-loop (guarded
by `x != len` with clamping of `x` and `y`) terminates: with any fuel
exceeding the list's length, started at `x = 0, y = 20`, it finishes and
produces exactly `⌈len / 20⌉` chunks. -/
theorem chunkLoop_terminates (l : List String) (fuel : Nat) (h : l.length < fuel) :
    ∃ cs, chunkLoopF fuel l 0 20 = some cs ∧ cs.length = (l.length + 19) / 20 :=
  ⟨chunkTwenty l, chunkLoopF_spec l fuel h, chunkTwenty_count l⟩

/-- Witness for C9: 45 items, fuel 46, exactly three chunks. -/
theorem chunkLoop_terminates_witness :
    ∃ cs, chunkLoopF 46 (List.replicate 45 "r") 0 20 = some cs ∧
      cs.length = ((List.replicate 45 "r").length + 19) / 20 :=
  chunkLoop_terminates (List.replicate 45 "r") 46 (by simp)

/-! Section: claim C4 -/

/-- C4. `test_node_access` fails with `ValueError` — before issuing
any simulation call, as witnessed by the failure being independent of the
oracle `sim` — if and only if the action list is empty or has more than
twenty entries. -/
theorem test_node_access_valueError_iff (sim : SimRequest → Response)
    (nodeLabel : String) (actionList : List String)
    (resourceList : Option (List String)) :
    test_node_access sim nodeLabel actionList resourceList =
        Except.error PyError.valueError
      ↔ (actionList.length = 0 ∨ 20 < actionList.length) := by
  unfold test_node_access
  by_cases h : (actionList.length > 20 || actionList.length == 0) = true
  · rw [if_pos h]
    simp only [Bool.or_eq_true, decide_eq_true_eq, beq_iff_eq, gt_iff_lt] at h
    constructor
    · intro _
      tauto
    · intro _
      rfl
  · rw [if_neg h]
    simp only [Bool.or_eq_true, decide_eq_true_eq, beq_iff_eq, gt_iff_lt,
      not_or] at h
    constructor
    · intro hcontra
      exact absurd hcontra (by simp)
    · intro hor
      omega

/-- Witness for C4: empty and twenty-one-element action lists fail. -/
theorem test_node_access_valueError_iff_witness :
    test_node_access allowAllSim "p" [] (some []) =
        Except.error PyError.valueError ∧
    test_node_access allowAllSim "p" (List.replicate 21 "iam:PassRole") none =
        Except.error PyError.valueError :=
  ⟨(test_node_access_valueError_iff allowAllSim "p" [] (some [])).mpr
      (Or.inl rfl),
   (test_node_access_valueError_iff allowAllSim "p"
      (List.replicate 21 "iam:PassRole") none).mpr (Or.inr (by simp))⟩

/-! Section: claim C5 -/

/-- C5. `_test_less` extracts with single-resource mode exactly when
its resource chunk has one resource and with multi-resource mode when it
has two or more; and multi-resource extraction emits, for each evaluation
result, one decision tuple per nested resource-specific entry, pairing
the outer action name with the inner resource name and the
`decision == "allowed"` boolean. -/
theorem _test_less_extraction_modes :
    (∀ (sim : SimRequest → Response) (nodeLabel action : String)
      (c : List String), c.length = 1 →
      (_test_less sim nodeLabel action c).1 =
        _extract_results (sim (mkAccessRequest nodeLabel action c))) ∧
    (∀ (sim : SimRequest → Response) (nodeLabel action : String)
      (c : List String), 2 ≤ c.length →
      (_test_less sim nodeLabel action c).1 =
        _extract_resource_specific_results (sim (mkAccessRequest nodeLabel action c))) ∧
    (∀ response : Response,
      _extract_resource_specific_results response =
        response.evaluationResults.flatMap
          (fun er => er.resourceSpecificResults.map
            (fun rsr => (er.evalActionName, rsr.evalResourceName,
                         rsr.evalResourceDecision == "allowed")))) := by
  refine ⟨?_, ?_, _extract_resource_specific_results_eq⟩
  · intro sim nodeLabel action c hc
    unfold _test_less
    have : ¬ c.length > 1 := by omega
    simp only [if_neg this]
  · intro sim nodeLabel action c hc
    unfold _test_less
    have : c.length > 1 := by omega
    simp only [if_pos this]

/-- Witness for C5: a one-resource chunk and a two-resource chunk. -/
theorem _test_less_extraction_modes_witness :
    ((_test_less allowAllSim "p" "s3:GetObject" ["r1"]).1 =
      _extract_results (allowAllSim (mkAccessRequest "p" "s3:GetObject" ["r1"]))) ∧
    ((_test_less allowAllSim "p" "s3:GetObject" ["r1", "r2"]).1 =
      _extract_resource_specific_results
        (allowAllSim (mkAccessRequest "p" "s3:GetObject" ["r1", "r2"]))) ∧
    (_extract_resource_specific_results
        (allowAllSim (mkAccessRequest "p" "s3:GetObject" ["r1", "r2"])) =
      (allowAllSim (mkAccessRequest "p" "s3:GetObject" ["r1", "r2"])).evaluationResults.flatMap
        (fun er => er.resourceSpecificResults.map
          (fun rsr => (er.evalActionName, rsr.evalResourceName,
                       rsr.evalResourceDecision == "allowed")))) :=
  ⟨_test_less_extraction_modes.1 allowAllSim "p" "s3:GetObject" ["r1"] (by decide),
   _test_less_extraction_modes.2.1 allowAllSim "p" "s3:GetObject" ["r1", "r2"]
     (by decide),
   _test_less_extraction_modes.2.2
     (allowAllSim (mkAccessRequest "p" "s3:GetObject" ["r1", "r2"]))⟩

/-! Section: claim C2 -/

/-- C2. The retry loop shared by `_test_less` and `_test_less_pass`:
a throttling failure (error code containing the throttling marker) on the
first call followed by success on the second yields the success response
after exactly one retry and one backoff sleep; a non-throttling failure
on a call is re-raised immediately with zero further retries and zero
sleeps. -/
theorem invokeRetry_throttle_and_raise :
    (∀ (e : ClientError) (r : Response), isThrottling e = true →
      invokeRetry [Except.error e, Except.ok r] = InvokeOutcome.success r 1) ∧
    (∀ (e : ClientError) (rest : List (Except ClientError Response)),
      isThrottling e = false →
      invokeRetry (Except.error e :: rest) = InvokeOutcome.raised e 0) := by
  constructor
  · intro e r he
    unfold invokeRetry
    rw [if_pos he]
    rfl
  · intro e rest he
    unfold invokeRetry
    rw [if_neg (by rw [he]; exact Bool.false_ne_true)]

/-- Witness for C2: a concrete throttling code and a concrete
non-throttling code. -/
theorem invokeRetry_throttle_and_raise_witness :
    invokeRetry [Except.error ⟨"ThrottlingException"⟩,
                 Except.ok (⟨[]⟩ : Response)] =
        InvokeOutcome.success (⟨[]⟩ : Response) 1 ∧
    invokeRetry [Except.error ⟨"AccessDenied"⟩,
                 Except.ok (⟨[]⟩ : Response)] =
        InvokeOutcome.raised ⟨"AccessDenied"⟩ 0 :=
  ⟨invokeRetry_throttle_and_raise.1 ⟨"ThrottlingException"⟩ ⟨[]⟩ (by decide),
   invokeRetry_throttle_and_raise.2 ⟨"AccessDenied"⟩
     [Except.ok (⟨[]⟩ : Response)] (by decide)⟩

/-! Section: claim C10 -/

/-- In a response whose every evaluation result is the fixed
`("s3:GetObject", "*", "allowed")` entry, the lookup loop returns true
exactly for a non-empty result list queried at that pair. -/
theorem findInEvalLoop_const (a r : String) :
    ∀ results : List EvaluationResult,
      (∀ er ∈ results,
        er.evalActionName = "s3:GetObject" ∧ er.evalResourceName = "*" ∧
        er.evalDecision = "allowed") →
      (findInEvalLoop a r results = true ↔
        (results ≠ [] ∧ a = "s3:GetObject" ∧ r = "*")) := by
  intro results
  induction results with
  | nil =>
    intro _
    simp [findInEvalLoop]
  | cons er rest ih =>
    intro hall
    have hhd := hall er (List.mem_cons_self er rest)
    have htl : ∀ e ∈ rest,
        e.evalActionName = "s3:GetObject" ∧ e.evalResourceName = "*" ∧
        e.evalDecision = "allowed" :=
      fun e he => hall e (List.mem_cons_of_mem er he)
    by_cases hm : a = "s3:GetObject" ∧ r = "*"
    · have hcond : (a == er.evalActionName && r == er.evalResourceName) = true := by
        rw [hhd.1, hhd.2.1]
        simp [hm.1, hm.2]
      rw [findInEvalLoop, if_pos hcond, hhd.2.2]
      simp [hm]
    · have hcond : ¬ (a == er.evalActionName && r == er.evalResourceName) = true := by
        intro hcontra
        rw [hhd.1, hhd.2.1] at hcontra
        simp only [Bool.and_eq_true, beq_iff_eq] at hcontra
        exact hm hcontra
      rw [findInEvalLoop, if_neg hcond, ih htl]
      constructor
      · intro h
        exact absurd ⟨h.2.1, h.2.2⟩ hm
      · intro h
        exact absurd ⟨h.2.1, h.2.2⟩ hm

/-- If no evaluation result matches the queried pair, the loop returns
false. -/
theorem findInEvalLoop_no_match (a r : String) :
    ∀ results : List EvaluationResult,
      (∀ er ∈ results, ¬(a = er.evalActionName ∧ r = er.evalResourceName)) →
      findInEvalLoop a r results = false := by
  intro results
  induction results with
  | nil => intro _; rfl
  | cons er rest ih =>
    intro hall
    have hcond : ¬ (a == er.evalActionName && r == er.evalResourceName) = true := by
      intro hcontra
      simp only [Bool.and_eq_true, beq_iff_eq] at hcontra
      exact hall er (List.mem_cons_self er rest) hcontra
    rw [findInEvalLoop, if_neg hcond]
    exact ih (fun e he => hall e (List.mem_cons_of_mem er he))

/-- C10. For a response whose evaluation results all record the pair
`("s3:GetObject", "*")` with decision `allowed` (and at least one entry),
`findInEvalResults` returns true exactly for that queried pair and false
for every other pair; and in general it returns false whenever no
evaluation result matches the queried pair. -/
theorem findInEvalResults_lookup :
    (∀ (response : Response) (a r : String),
      response.evaluationResults ≠ [] →
      (∀ er ∈ response.evaluationResults,
        er.evalActionName = "s3:GetObject" ∧ er.evalResourceName = "*" ∧
        er.evalDecision = "allowed") →
      (findInEvalResults response a r = true ↔ (a = "s3:GetObject" ∧ r = "*"))) ∧
    (∀ (response : Response) (a r : String),
      (∀ er ∈ response.evaluationResults,
        ¬(a = er.evalActionName ∧ r = er.evalResourceName)) →
      findInEvalResults response a r = false) := by
  constructor
  · intro response a r hne hall
    unfold findInEvalResults
    rw [findInEvalLoop_const a r response.evaluationResults hall]
    constructor
    · intro h
      exact ⟨h.2.1, h.2.2⟩
    · intro h
      exact ⟨hne, h.1, h.2⟩
  · intro response a r hall
    exact findInEvalLoop_no_match a r response.evaluationResults hall

/-- Witness for C10 at a concrete one-entry response. -/
theorem findInEvalResults_lookup_witness :
    findInEvalResults ⟨[⟨"s3:GetObject", "*", "allowed", []⟩]⟩
        "s3:GetObject" "*" = true ∧
    findInEvalResults ⟨[⟨"s3:GetObject", "*", "allowed", []⟩]⟩
        "s3:PutObject" "*" = false :=
  ⟨(findInEvalResults_lookup.1 ⟨[⟨"s3:GetObject", "*", "allowed", []⟩]⟩
      "s3:GetObject" "*" (by simp) (by simp)).mpr ⟨rfl, rfl⟩,
   findInEvalResults_lookup.2 ⟨[⟨"s3:GetObject", "*", "allowed", []⟩]⟩
      "s3:PutObject" "*" (by simp)⟩

/-! Section: claim C7 -/

/-- C7. `testAction` raises
`Exception('Failed to get a response when simulating a policy')` if and
only if the simulation response lacks the `EvaluationResults` key, or its
first evaluation result lacks the `EvalDecision` key.  (A present but
empty result list instead raises `IndexError` inside the membership
test, consistent with the iff.)  `testAction` has no retry loop: the
failure is local and surfaces directly to the caller as an exception,
never as a throttling retry. -/
theorem testAction_simulationFailed_iff (getKeys : String → List String)
    (sim : SimRequest → RawResponse) (policySourceArn actionName : String)
    (resourceArn : Option String) :
    testAction getKeys sim policySourceArn actionName resourceArn =
        Except.error PyError.simulationFailed
      ↔ ((sim (testActionRequest getKeys policySourceArn actionName
            resourceArn)).evaluationResults = none ∨
         ∃ r t, (sim (testActionRequest getKeys policySourceArn actionName
            resourceArn)).evaluationResults = some (r :: t) ∧
           r.evalDecision = none) := by
  unfold testAction extractTestActionDecision
  cases h : (sim (testActionRequest getKeys policySourceArn actionName
      resourceArn)).evaluationResults with
  | none => simp
  | some l =>
    cases l with
    | nil => simp
    | cons r t =>
      cases hd : r.evalDecision with
      | none =>
        simp only [hd]
        constructor
        · intro _
          exact Or.inr ⟨r, t, rfl, hd⟩
        · intro _
          trivial
      | some d =>
        simp only [hd]
        constructor
        · intro hcontra
          exact absurd hcontra (by simp)
        · intro hor
          rcases hor with hnone | ⟨r1, t1, hsome, hdec⟩
          · exact absurd hnone (by simp)
          · have hr : r1 = r := by
              injection hsome with h1
              injection h1 with h2 _
              exact h2.symm
            rw [hr, hd] at hdec
            exact absurd hdec (by simp)

/-- Witness for C7: an oracle whose response lacks `EvaluationResults`. -/
theorem testAction_simulationFailed_iff_witness :
    testAction (fun _ => []) (fun _ => ⟨none⟩)
        "arn:aws:iam::0:user/alice" "s3:GetObject" none =
      Except.error PyError.simulationFailed :=
  (testAction_simulationFailed_iff (fun _ => []) (fun _ => ⟨none⟩)
      "arn:aws:iam::0:user/alice" "s3:GetObject" none).mpr (Or.inl rfl)

/-! Section: claim C8 -/

/-- Closed form of the `testAction` context-building loop: once the
`username_key_used` flag is set nothing more is appended; otherwise one
`aws:username` entry is appended exactly when the key occurs in the
list. -/
theorem buildCtxLoop_closed (policySourceArn : String) :
    ∀ (keys : List String) (acc : List ContextEntry) (used : Bool),
      buildCtxLoop policySourceArn keys acc used =
        acc ++ (if used then [] else
          if keys.contains "aws:username" then [usernameEntry policySourceArn]
          else []) := by
  intro keys
  induction keys with
  | nil =>
    intro acc used
    cases used <;> simp [buildCtxLoop]
  | cons key rest ih =>
    intro acc used
    cases used with
    | true =>
      rw [buildCtxLoop]
      have : ¬ (key == "aws:username" && !true) = true := by simp
      rw [if_neg this, ih]
      simp
    | false =>
      by_cases hk : key = "aws:username"
      · rw [buildCtxLoop]
        have : (key == "aws:username" && !false) = true := by simp [hk]
        rw [if_pos this, ih]
        simp [hk]
      · rw [buildCtxLoop]
        have : ¬ (key == "aws:username" && !false) = true := by simp [hk]
        rw [if_neg this, ih]
        have hbeq : ("aws:username" == key) = false := by
          rw [beq_eq_false_iff_ne]
          exact fun h => hk h.symm
        have : ((key :: rest).contains "aws:username") = rest.contains "aws:username" := by
          simp only [List.contains_cons, hbeq, Bool.false_or]
        rw [this]

/-- Python's `split` never returns an empty list. -/
theorem pySplitAux_ne_nil (sep : Char) : ∀ l : List Char, pySplitAux sep l ≠ [] := by
  intro l
  induction l with
  | nil => simp [pySplitAux]
  | cons c cs ih =>
    rw [pySplitAux]
    by_cases h : c = sep
    · simp [h]
    · rw [if_neg h]
      match hm : pySplitAux sep cs with
      | t :: ts => simp
      | [] => exact absurd hm ih

/-- Indexing `tokens[len(tokens) - 1]` is the last element. -/
theorem getD_length_sub_one {α : Type} (d : α) :
    ∀ l : List α, l ≠ [] → l.getD (l.length - 1) d = l.getLastD d := by
  intro l
  induction l with
  | nil => intro h; exact absurd rfl h
  | cons a rest ih =>
    intro _
    cases rest with
    | nil => rfl
    | cons b t =>
      have hne : b :: t ≠ [] := by simp
      have : (a :: b :: t).length - 1 = (b :: t).length - 1 + 1 := by
        simp only [List.length_cons]
        omega
      rw [this]
      have hstep : (a :: b :: t).getD ((b :: t).length - 1 + 1) d =
          (b :: t).getD ((b :: t).length - 1) d := by
        simp [List.getD]
      rw [hstep, ih hne]
      rfl

/-- C8. Every simulation call of the core carries at most one context
entry per distinct key: the `_test_less_pass` request always carries
exactly the single `iam:PassedToService` entry, and `testAction` attaches
an `aws:username` entry at most once — even when `aws:username` occurs
several times among the returned context key names — whose value is the
last `/`-delimited segment of the principal identifier. -/
theorem context_duplicate_key_suppression :
    (∀ (passerLabel service : String) (candidates : List AWSNode),
      (mkPassRequest passerLabel candidates service).contextEntries =
        [⟨"iam:PassedToService", [service], "string"⟩] ∧
      ∀ k : String,
        ((mkPassRequest passerLabel candidates service).contextEntries.countP
          (fun e => e.contextKeyName == k)) ≤ 1) ∧
    (∀ (policySourceArn : String) (keys : List String),
      (∀ k : String,
        ((buildTestActionContext policySourceArn keys).countP
          (fun e => e.contextKeyName == k)) ≤ 1) ∧
      ∀ e ∈ buildTestActionContext policySourceArn keys,
        e.contextKeyName = "aws:username" ∧
        e.contextKeyValues = [(pySplit '/' policySourceArn).getLastD ""]) := by
  constructor
  · intro passerLabel service candidates
    refine ⟨rfl, ?_⟩
    intro k
    rw [mkPassRequest]
    rw [List.countP_cons]
    simp only [List.countP_nil]
    by_cases h : (⟨"iam:PassedToService", [service], "string"⟩ :
        ContextEntry).contextKeyName == k
    · simp [h]
    · simp [h]
  · intro policySourceArn keys
    have hclosed := buildCtxLoop_closed policySourceArn keys [] false
    have hval : (usernameEntry policySourceArn).contextKeyValues =
        [(pySplit '/' policySourceArn).getLastD ""] := by
      rw [usernameEntry]
      have hne : pySplit '/' policySourceArn ≠ [] := by
        unfold pySplit
        intro hmap
        exact pySplitAux_ne_nil '/' policySourceArn.data (List.map_eq_nil_iff.mp hmap)
      rw [getD_length_sub_one _ _ hne]
    constructor
    · intro k
      unfold buildTestActionContext
      rw [hclosed]
      simp only [Bool.false_eq_true, if_false, List.nil_append]
      by_cases hc : keys.contains "aws:username"
      · rw [if_pos hc, List.countP_cons]
        simp only [List.countP_nil]
        by_cases h : (usernameEntry policySourceArn).contextKeyName == k
        · simp [h]
        · simp [h]
      · rw [if_neg hc]
        simp
    · intro e he
      unfold buildTestActionContext at he
      rw [hclosed] at he
      simp only [Bool.false_eq_true, if_false, List.nil_append] at he
      by_cases hc : keys.contains "aws:username"
      · rw [if_pos hc] at he
        rcases List.mem_singleton.mp he with rfl
        exact ⟨rfl, hval⟩
      · rw [if_neg hc] at he
        simp at he

/-- Witness for C8: a duplicated `aws:username` key still yields a single
entry, whose value is the last path segment of the ARN. -/
theorem context_duplicate_key_suppression_witness :
    ((mkPassRequest "p" [] "ec2.amazonaws.com").contextEntries =
      [⟨"iam:PassedToService", ["ec2.amazonaws.com"], "string"⟩]) ∧
    (∀ e ∈ buildTestActionContext "arn:aws:iam::0:user/path/alice"
        ["aws:username", "aws:username"],
      e.contextKeyName = "aws:username" ∧
      e.contextKeyValues =
        [(pySplit '/' "arn:aws:iam::0:user/path/alice").getLastD ""]) ∧
    ((buildTestActionContext "arn:aws:iam::0:user/path/alice"
        ["aws:username", "aws:username"]).countP
      (fun e => e.contextKeyName == "aws:username")) ≤ 1 :=
  ⟨(context_duplicate_key_suppression.1 "p" "ec2.amazonaws.com" []).1,
   (context_duplicate_key_suppression.2 "arn:aws:iam::0:user/path/alice"
      ["aws:username", "aws:username"]).2,
   (context_duplicate_key_suppression.2 "arn:aws:iam::0:user/path/alice"
      ["aws:username", "aws:username"]).1 "aws:username"⟩

/-! Section: claim C6 -/

/-- The inner loop of `_extractPassResults` appends the candidate once per
matching allowed resource-specific result. -/
theorem foldl_ite_append {α β : Type} (p : α → Bool) (c : β) :
    ∀ (l : List α) (acc : List β),
      l.foldl (fun a2 x => if p x then a2 ++ [c] else a2) acc =
        acc ++ List.replicate (l.countP p) c := by
  intro l
  induction l with
  | nil => intro acc; simp
  | cons x xs ih =>
    intro acc
    rw [List.foldl_cons, ih, List.countP_cons]
    by_cases h : p x
    · rw [if_pos h, if_pos h, List.append_assoc]
      congr 1
    · rw [if_neg h, if_neg h]
      simp

/-- Under pairwise distinct resource names, at most one resource-specific
result matches a given label with an allowed decision. -/
theorem countP_match_le_one (rsrs : List ResourceSpecificResult) (lbl : String)
    (hnd : (rsrs.map (fun rsr => rsr.evalResourceName)).Nodup) :
    rsrs.countP
      (fun rsr => lbl == rsr.evalResourceName &&
        rsr.evalResourceDecision == "allowed") ≤ 1 := by
  have hmono : rsrs.countP
      (fun rsr => lbl == rsr.evalResourceName &&
        rsr.evalResourceDecision == "allowed")
      ≤ rsrs.countP (fun rsr => rsr.evalResourceName == lbl) := by
    apply List.countP_mono_left
    intro x _ hx
    simp only [Bool.and_eq_true, beq_iff_eq] at hx
    rw [beq_iff_eq]
    exact hx.1.symm
  have hcount : rsrs.countP (fun rsr => rsr.evalResourceName == lbl) =
      List.count lbl (rsrs.map (fun rsr => rsr.evalResourceName)) := by
    rw [List.count_eq_countP, List.countP_map]
    rfl
  have hle : List.count lbl (rsrs.map (fun rsr => rsr.evalResourceName)) ≤ 1 :=
    List.nodup_iff_count_le_one.mp hnd lbl
  omega

/-- A replicate of at most one copy is the singleton-or-empty of the
`any` test. -/
theorem replicate_countP_eq_ite {α β : Type} (p : α → Bool) (l : List α) (c : β)
    (h : l.countP p ≤ 1) :
    List.replicate (l.countP p) c = if l.any p then [c] else [] := by
  by_cases ha : l.any p
  · have hpos : 0 < l.countP p := List.countP_pos_iff.mpr (List.any_eq_true.mp ha)
    have hone : l.countP p = 1 := by omega
    rw [hone, if_pos ha]
    rfl
  · have hzero : l.countP p = 0 := by
      by_contra hne
      have hpos : 0 < l.countP p := by omega
      rcases List.countP_pos_iff.mp hpos with ⟨a, hal, hpa⟩
      exact ha (List.any_eq_true.mpr ⟨a, hal, hpa⟩)
    rw [hzero, if_neg ha]
    rfl

/-- Under a response with a first evaluation result whose resource names
are pairwise distinct, `_extractPassResults` filters the candidates by
the allowed decisions of their own labels, preserving candidate order. -/
theorem _extractPassResults_filter (response : Response) (candidates : List AWSNode)
    (er : EvaluationResult) (t : List EvaluationResult)
    (hhead : response.evaluationResults = er :: t)
    (hnd : (er.resourceSpecificResults.map (fun rsr => rsr.evalResourceName)).Nodup) :
    _extractPassResults response candidates =
      Except.ok (candidates.filter (fun c => passAllowed response c)) := by
  unfold _extractPassResults
  simp only [hhead]
  congr 1
  have hbody : ∀ (acc : List AWSNode) (c : AWSNode),
      er.resourceSpecificResults.foldl
        (fun acc2 rsr =>
          if c.label == rsr.evalResourceName &&
              rsr.evalResourceDecision == "allowed" then
            acc2 ++ [c]
          else acc2)
        acc
      = acc ++ (if passAllowed response c then [c] else []) := by
    intro acc c
    rw [foldl_ite_append _ c er.resourceSpecificResults acc,
      replicate_countP_eq_ite _ _ _ (countP_match_le_one _ _ hnd)]
    congr 1
    have : passAllowed response c = er.resourceSpecificResults.any
        (fun rsr => c.label == rsr.evalResourceName &&
          rsr.evalResourceDecision == "allowed") := by
      unfold passAllowed
      rw [hhead]
    rw [this]
  have h := foldl_append_of_body _
    (fun c => if passAllowed response c then [c] else []) hbody candidates []
  rw [h, List.nil_append, flatMap_ite_eq_filter]

/-- Lemma: `_test_less_pass` under the same response shape: the filtered
candidates and the single issued request. -/
theorem _test_less_pass_ok (sim : SimRequest → Response) (passerLabel service : String)
    (candidates : List AWSNode) (er : EvaluationResult) (t : List EvaluationResult)
    (hhead : (sim (mkPassRequest passerLabel candidates service)).evaluationResults
      = er :: t)
    (hnd : (er.resourceSpecificResults.map (fun rsr => rsr.evalResourceName)).Nodup) :
    _test_less_pass sim passerLabel candidates service = Except.ok
      (candidates.filter (fun c =>
        passAllowed (sim (mkPassRequest passerLabel candidates service)) c),
       [mkPassRequest passerLabel candidates service]) := by
  have hx := _extractPassResults_filter
    (sim (mkPassRequest passerLabel candidates service)) candidates er t hhead hnd
  unfold _test_less_pass
  simp only [hx]
  rfl

/-- The chunk loop of `testMassPass`, over chunks whose `_test_less_pass`
call succeeds with the filtered candidates, accumulates the filters and
requests in chunk order. -/
theorem massPass_foldlM (sim : SimRequest → Response) (passerLabel service : String) :
    ∀ (chunks : List (List AWSNode)),
      (∀ ch ∈ chunks, _test_less_pass sim passerLabel ch service = Except.ok
        (ch.filter (fun c => passAllowed (sim (mkPassRequest passerLabel ch service)) c),
         [mkPassRequest passerLabel ch service])) →
      ∀ init : List AWSNode × List SimRequest,
        chunks.foldlM
          (fun acc rolelist => do
            let step ← _test_less_pass sim passerLabel rolelist service
            pure (acc.1 ++ step.1, acc.2 ++ step.2))
          init
        = Except.ok
          (init.1 ++ chunks.flatMap (fun ch =>
            ch.filter (fun c => passAllowed (sim (mkPassRequest passerLabel ch service)) c)),
           init.2 ++ chunks.map (fun ch => mkPassRequest passerLabel ch service)) := by
  intro chunks
  induction chunks with
  | nil =>
    intro _ init
    simp only [List.foldlM_nil, List.flatMap_nil, List.map_nil, List.append_nil]
    rfl
  | cons ch chs ih =>
    intro hall init
    have hch := hall ch (List.mem_cons_self ch chs)
    have htl : ∀ c ∈ chs, _test_less_pass sim passerLabel c service = Except.ok
        (c.filter (fun x => passAllowed (sim (mkPassRequest passerLabel c service)) x),
         [mkPassRequest passerLabel c service]) :=
      fun c hc => hall c (List.mem_cons_of_mem ch hc)
    rw [List.foldlM_cons, hch]
    have hstep := ih htl
      (init.1 ++ ch.filter
        (fun c => passAllowed (sim (mkPassRequest passerLabel ch service)) c),
       init.2 ++ [mkPassRequest passerLabel ch service])
    exact hstep.trans
      (by simp [List.flatMap_cons, List.map_cons, List.append_assoc])

/-- C6. Whenever every chunk's response carries a first evaluation
result whose resource-specific results name each resource at most once
(in particular when it has exactly one entry per requested resource ARN),
`testMassPass` returns exactly the candidates whose label carries an
`allowed` decision in their own chunk's response, preserving input order
within each chunk and chunk order across chunks — and for an empty
candidate list it issues zero remote calls and returns the empty list. -/
theorem testMassPass_filters (sim : SimRequest → Response)
    (passerLabel service : String) (candidates : List AWSNode)
    (H : ∀ ch ∈ chunkTwenty candidates,
      ∃ er t, (sim (mkPassRequest passerLabel ch service)).evaluationResults = er :: t ∧
        (er.resourceSpecificResults.map (fun rsr => rsr.evalResourceName)).Nodup) :
    testMassPass sim passerLabel candidates service = Except.ok
      ((chunkTwenty candidates).flatMap (fun ch =>
        ch.filter (fun c => passAllowed (sim (mkPassRequest passerLabel ch service)) c)),
       (chunkTwenty candidates).map (fun ch => mkPassRequest passerLabel ch service)) ∧
    (candidates = [] →
      testMassPass sim passerLabel candidates service = Except.ok ([], [])) := by
  have hok : ∀ ch ∈ chunkTwenty candidates,
      _test_less_pass sim passerLabel ch service = Except.ok
        (ch.filter (fun c => passAllowed (sim (mkPassRequest passerLabel ch service)) c),
         [mkPassRequest passerLabel ch service]) := by
    intro ch hch
    rcases H ch hch with ⟨er, t, hhead, hnd⟩
    exact _test_less_pass_ok sim passerLabel service ch er t hhead hnd
  constructor
  · unfold testMassPass
    by_cases h0 : (candidates.length == 0) = true
    · have hnil : candidates = [] := List.length_eq_zero.mp (by simpa using h0)
      rw [if_pos h0, hnil, chunkTwenty_nil]
      simp
    · rw [if_neg h0]
      have hne : candidates ≠ [] := by
        intro h
        rw [h] at h0
        simp at h0
      by_cases h20 : (candidates.length > 20)
      · rw [if_pos h20]
        have := massPass_foldlM sim passerLabel service (chunkTwenty candidates)
          hok ([], [])
        simpa using this
      · rw [if_neg h20]
        have hchunk : chunkTwenty candidates = [candidates] :=
          chunkTwenty_short _ hne (by omega)
        have hc := hok candidates (by rw [hchunk]; exact List.mem_singleton.mpr rfl)
        simp only [hc]
        rw [hchunk]
        simp
  · intro h
    rw [h]
    rfl

/-- Witness for C6: three candidates in one chunk against the concrete
all-allowing oracle. -/
theorem testMassPass_filters_witness :
    testMassPass allowAllSim "p" [⟨"a"⟩, ⟨"b"⟩, ⟨"c"⟩] "ec2.amazonaws.com"
      = Except.ok
        ((chunkTwenty [(⟨"a"⟩ : AWSNode), ⟨"b"⟩, ⟨"c"⟩]).flatMap (fun ch =>
          ch.filter (fun c => passAllowed
            (allowAllSim (mkPassRequest "p" ch "ec2.amazonaws.com")) c)),
         (chunkTwenty [(⟨"a"⟩ : AWSNode), ⟨"b"⟩, ⟨"c"⟩]).map
           (fun ch => mkPassRequest "p" ch "ec2.amazonaws.com")) :=
  (testMassPass_filters allowAllSim "p" "ec2.amazonaws.com"
    [⟨"a"⟩, ⟨"b"⟩, ⟨"c"⟩]
    (by
      intro ch hch
      rw [chunkTwenty_short _ (by simp) (by simp)] at hch
      have hcheq : ch = [(⟨"a"⟩ : AWSNode), ⟨"b"⟩, ⟨"c"⟩] :=
        List.mem_singleton.mp hch
      subst hcheq
      exact ⟨_, _, rfl, by decide⟩)).1
